import Mathlib

/-!
Verification of the Multi-Agent Tutorial Generator repository.

The development shallowly embeds the parts of the repository that the
specification talks about:

* the Gemini key-rotation decorator `with_api_key_rotation` from
  `backend/main.py` (shown in `backend_setup_guide.md`),
* the search endpoint `fetch_from_internet` (primary DuckDuckGo scrape with
  a Serper API fallback) from the same file, and
* the frontend generation pipeline `startFullGenerationProcess` from
  `App.tsx`.

JavaScript/Python strings are modelled as lists of characters, with the
string operations the code uses (`trim`, `startsWith`, `includes`,
`replace` with a string pattern, `substring`, `split(...)[-1]`) implemented
over `List Char`.  External collaborators (the Gemini model, the search
providers, URL unquoting) are oracles supplied as parameters, so that every
control-flow decision of the embedded code is driven by explicit data.
-/

namespace Tutorials



/-- Characters of a JavaScript/Python string. -/
abbrev Str := List Char


/-- Whitespace test used by `trim` (JS `String.prototype.trim`,
Python `str.strip`). -/
def isWs (c : Char) : Bool := c.isWhitespace


/-- Drop leading whitespace. -/
def trimLeft (s : Str) : Str := s.dropWhile isWs


/-- Drop trailing whitespace. -/
def trimRight (s : Str) : Str := (s.reverse.dropWhile isWs).reverse


/-- JS `s.trim()` / Python `s.strip()`: drop whitespace at both ends. -/
def trimStr (s : Str) : Str := trimRight (trimLeft s)


/-- JS `s.startsWith(pat)`: is `pat` a prefix of the second argument? -/
def startsWithL : Str → Str → Bool
  | [], _ => true
  | _ :: _, [] => false
  | p :: ps, c :: cs => p == c && startsWithL ps cs


/-- JS `s.includes(pat)`: does `pat` occur as a substring? -/
def containsSub (pat : Str) : Str → Bool
  | [] => pat.isEmpty
  | c :: rest => startsWithL pat (c :: rest) || containsSub pat rest


/-- JS `s.replace(pat, "")` with a string pattern: removes only the first
occurrence of `pat` (or nothing when `pat` does not occur). -/
def removeFirst (pat : Str) : Str → Str
  | [] => []
  | c :: rest =>
    if startsWithL pat (c :: rest) then (c :: rest).drop pat.length
    else c :: removeFirst pat rest


/-!
## The key-rotation decorator `with_api_key_rotation`

`backend/main.py` keeps an ordered pool of `N` Gemini keys and a global
cursor `current_key_index`.  The decorator runs
`for i in range(N)`: read the key at the cursor, run the wrapped call;
on success return; on `ResourceExhausted` advance the cursor by one mod `N`
and, if this was the last iteration, raise HTTP 429
("All Gemini API keys are currently rate limited"); on any other exception
raise HTTP 500 immediately.  The final `raise` after the loop is only
reachable when the pool is empty.

The outcome of each underlying call is supplied by an oracle
`call : Nat → CallOutcome` indexed by the attempt number: one sequential
invocation performs its attempts in order, so the attempt number determines
the call site.  Keys are identified by their index in the pool, hence the
key read by an attempt is the cursor value at that attempt.
-/

/-- Classification of one underlying Gemini call, as the decorator's
`try/except` blocks distinguish them. -/
inductive CallOutcome where
  | success (resp : Nat)
  | quotaExceeded
  | otherError (msg : Nat)
deriving DecidableEq


/-- Result of one invocation of the decorated endpoint. -/
inductive InvokeResult where
  | ok (resp : Nat)
  /-- HTTP 429: "All Gemini API keys are currently rate limited." -/
  | allKeysExhausted
  /-- HTTP 500 raised for a non-quota exception. -/
  | requestFailed (msg : Nat)
  /-- HTTP 500 "Failed to execute the agent after trying all keys.",
  reachable only for an empty pool. -/
  | exhaustedFallthrough
deriving DecidableEq


/-- Observable trace of one invocation: result, final cursor value, and the
key indices used by the attempts, in order. -/
structure InvokeTrace where
  result : InvokeResult
  finalCursor : Nat
  attemptKeys : List Nat
deriving DecidableEq


/-- The `for i in range(N)` loop of `with_api_key_rotation`, from iteration
`i` with the rotation cursor at `cursor`. -/
def rotationLoop (N : Nat) (call : Nat → CallOutcome) (i : Nat) (cursor : Nat) :
    InvokeTrace :=
  if _h : i < N then
    match call i with
    | .success r => ⟨.ok r, cursor, [cursor]⟩
    | .quotaExceeded =>
      let cursor2 := (cursor + 1) % N
      if i = N - 1 then ⟨.allKeysExhausted, cursor2, [cursor]⟩
      else
        let t := rotationLoop N call (i + 1) cursor2
        ⟨t.result, t.finalCursor, cursor :: t.attemptKeys⟩
    | .otherError m => ⟨.requestFailed m, cursor, [cursor]⟩
  else ⟨.exhaustedFallthrough, cursor, []⟩
termination_by N - i


/-- One invocation of a `with_api_key_rotation`-wrapped endpoint against a
pool of `N` keys with the shared cursor currently at `cursor0`. -/
def withApiKeyRotation (N : Nat) (call : Nat → CallOutcome) (cursor0 : Nat) :
    InvokeTrace :=
  rotationLoop N call 0 cursor0


/-- Is the outcome a success? -/
def isSuccess : CallOutcome → Bool
  | .success _ => true
  | _ => false


/-!
## The frontend pipeline `startFullGenerationProcess` (`App.tsx`)

The pipeline validates the topic, resets the per-run React state, asks
Agent 1 for a raw outline, builds the `processingPlan` (cleaned heading and
`requiresSearch` flag per raw heading), then runs the strictly sequential
per-section loop: optional Agent 4 search (whose failure is caught and
absorbed), Agent 2 content generation (whose failure propagates to the
surrounding `catch`, ending the run), Agent 3 formatting, and an append to
`completedTutorialParts`.

The agent services are an oracle indexed by the loop iteration at which the
pipeline calls them; `Except.error` models a thrown/rejected call.  Besides
the final state, the embedding returns the list of agent calls the run
performed, in order.
-/

/-- The `(requires_search)` marker token Agent 1 appends to outline
headings. -/
def marker : Str :=
  ['(', 'r', 'e', 'q', 'u', 'i', 'r', 'e', 's', '_',
   's', 'e', 'a', 'r', 'c', 'h', ')']


/-- A web source reference (`{uri, title}`); the backend builds these from
provider results whose fields may be missing, hence the options. -/
structure SourceRef where
  uri : Option Str
  title : Option Str
deriving DecidableEq


/-- `Agent4Response` from `types.ts`: a research summary plus sources. -/
structure Agent4Response where
  summaryText : Str
  sources : List SourceRef
deriving DecidableEq


/-- `FormattedTutorialPart` from `types.ts`; `sources` is optional. -/
structure FormattedTutorialPart where
  heading : Str
  fullMarkdownContent : Str
  sources : Option (List SourceRef)
deriving DecidableEq


/-- One entry of the frontend's `processingPlan`. -/
structure PlanEntry where
  raw : Str
  cleaned : Str
  requiresSearch : Bool
deriving DecidableEq


/-- The React state of `App` that the generation process reads or writes
(log entries and the transient activity string are display-only and
omitted). -/
structure AppState where
  topic : Str
  audience : Str
  outlineHeadings : List Str
  completedTutorialParts : List FormattedTutorialPart
  error : Option Str
  isLoading : Bool
  isTutorialComplete : Bool
  showFullScreenTutorial : Bool
deriving DecidableEq


/-- An externally observable agent call made by a pipeline run. -/
inductive Event where
  | outlineCall
  | searchCall (i : Nat)
  | contentCall (i : Nat)
deriving DecidableEq


/-- Oracle for the agent services, indexed by the loop iteration at which
the pipeline makes the call; `Except.error` is a thrown error's message. -/
structure Env where
  outlineResult : Except Str (List Str)
  searchResult : Nat → Except Str Agent4Response
  contentResult : Nat → Except Str Str


/-- The validation message for a blank topic. -/
def topicEmptyMsg : Str := "Please enter a tutorial topic.".toList


/-- The error thrown when Agent 1 returns an empty outline. -/
def emptyOutlineMsg : Str :=
  "Agent 1 (Outliner): Generated an empty outline. Cannot proceed.".toList


/-- The initial `previousSectionContext`. -/
def initialPrevCtx : Str := "This is the first section of the tutorial.".toList


/-- The "## heading" prefix Agent 3 matches and re-adds. -/
def headingPrefix (heading : Str) : Str := ['#', '#', ' '] ++ heading


/-- Agent 3's duplicate-heading strip in `App.tsx`: trim the raw content
and, when it starts with the section's "## heading" prefix, drop that prefix
and trim again. -/
def stripHeading (heading : Str) (rawContent : Str) : Str :=
  let t := trimStr rawContent
  if startsWithL (headingPrefix heading) t then
    trimStr (t.drop (headingPrefix heading).length)
  else t


/-- Agent 3's formatted section: the "## heading" line, a blank line, the
cleaned content, and a trailing blank line. -/
def formatSection (heading cleanedContent : Str) : Str :=
  headingPrefix heading ++ ['\n', '\n'] ++ cleanedContent ++ ['\n', '\n']


/-- The derived previous-section summary handed to the next section's
content call (first 100 characters of the cleaned content, with an ellipsis
when it was longer). -/
def mkPrevCtx (heading cleanedContent : Str) : Str :=
  "The previous section was \"".toList ++ heading ++
    "\" with content starting: \"".toList ++ cleanedContent.take 100 ++
    (if 100 < cleanedContent.length then "...".toList else []) ++
    "\". The next section should logically follow.".toList


/-- The `processingPlan` entry built from one raw outline heading:
`requiresSearch` iff the raw heading contains the marker, and the cleaned
heading is the raw heading with the first marker occurrence removed and the
result trimmed. -/
def mkPlanEntry (rawHeading : Str) : PlanEntry :=
  ⟨rawHeading, trimStr (removeFirst marker rawHeading),
   containsSub marker rawHeading⟩


/-- The per-section loop of `startFullGenerationProcess`: for each plan
entry, optionally call Agent 4 (absorbing a failure), call Agent 2 (whose
failure throws to the surrounding `catch`: record the error, stop), then
strip the duplicate heading, format, append the new part, and recurse with
the derived previous-section context.  The `finally` block's
`setIsLoading(false)` is folded into both terminal cases. -/
def sectionLoop (env : Env) :
    List PlanEntry → Nat → Str → AppState → AppState × List Event
  | [], _, _, s =>
    ({ s with isTutorialComplete := true, isLoading := false }, [])
  | e :: rest, i, _prevCtx, s =>
    let sd : Option Agent4Response :=
      if e.requiresSearch then
        match env.searchResult i with
        | .ok d => some d
        | .error _ => none
      else none
    let ev1 : List Event := if e.requiresSearch then [.searchCall i] else []
    match env.contentResult i with
    | .error msg =>
      ({ s with error := some msg, isLoading := false },
       ev1 ++ [.contentCall i])
    | .ok rawContent =>
      let cleanedContent := stripHeading e.cleaned rawContent
      let part : FormattedTutorialPart :=
        ⟨e.cleaned, formatSection e.cleaned cleanedContent,
         sd.map (fun d => d.sources)⟩
      let s2 := { s with
        completedTutorialParts := s.completedTutorialParts ++ [part] }
      let res :=
        sectionLoop env rest (i + 1) (mkPrevCtx e.cleaned cleanedContent) s2
      (res.1, ev1 ++ [.contentCall i] ++ res.2)


/-- `startFullGenerationProcess` from `App.tsx`: reject a blank topic,
otherwise reset the per-run state, call Agent 1, build the processing plan,
publish the cleaned headings, and run the per-section loop.  Returns the
post-run state and the list of agent calls made. -/
def startFullGenerationProcess (env : Env) (s0 : AppState)
    (currentTopic selectedAudience : Str) : AppState × List Event :=
  if (trimStr currentTopic).isEmpty then
    ({ s0 with error := some topicEmptyMsg }, [])
  else
    let s1 := { s0 with
      topic := currentTopic
      audience := selectedAudience
      outlineHeadings := []
      completedTutorialParts := []
      error := none
      isLoading := true
      isTutorialComplete := false
      showFullScreenTutorial := false }
    match env.outlineResult with
    | .error msg =>
      ({ s1 with error := some msg, isLoading := false }, [.outlineCall])
    | .ok raws =>
      if raws.isEmpty then
        ({ s1 with error := some emptyOutlineMsg, isLoading := false },
         [.outlineCall])
      else
        let plan := raws.map mkPlanEntry
        let s2 := { s1 with outlineHeadings := plan.map (fun e => e.cleaned) }
        let res := sectionLoop env plan 0 initialPrevCtx s2
        (res.1, .outlineCall :: res.2)


/-- The part the loop records for plan entry `e` at iteration `i`, when the
content call at `i` succeeds (junk value otherwise). -/
def mkPartFor (env : Env) (e : PlanEntry) (i : Nat) : FormattedTutorialPart :=
  let sd : Option Agent4Response :=
    if e.requiresSearch then (env.searchResult i).toOption else none
  match env.contentResult i with
  | .ok rawContent =>
    ⟨e.cleaned, formatSection e.cleaned (stripHeading e.cleaned rawContent),
     sd.map (fun d => d.sources)⟩
  | .error _ => ⟨e.cleaned, [], none⟩


/-- The parts the loop records for `entries`, starting at iteration `i`,
when every content call succeeds. -/
def expectedParts (env : Env) :
    List PlanEntry → Nat → List FormattedTutorialPart
  | [], _ => []
  | e :: rest, i => mkPartFor env e i :: expectedParts env rest (i + 1)


/-- The agent calls the loop makes for `entries`, starting at iteration `i`,
when every content call succeeds. -/
def expectedEvents : List PlanEntry → Nat → List Event
  | [], _ => []
  | e :: rest, i =>
    (if e.requiresSearch then [Event.searchCall i] else []) ++
      [Event.contentCall i] ++ expectedEvents rest (i + 1)


/-- A fresh initial React state. -/
def s0Init : AppState := ⟨[], [], [], [], none, false, false, false⟩


/-- Concrete oracle for the C2 witness: a 3-heading outline, all searches
fail, content succeeds for section 0 and fails from section 1 on. -/
def envC2 : Env :=
  ⟨.ok [['A'], ['B'], ['C']], fun _ => .error ['s'],
   fun j => if j = 0 then .ok ['x'] else .error ['e']⟩


/-- Raw outline for the C5/C6 witnesses: the second heading carries the
search marker. -/
def rawOutlineBC : List Str := [['A'], ['B', ' '] ++ marker, ['C']]


/-- Concrete oracle for the C5 witness: every per-section search fails,
every content call succeeds. -/
def envC5 : Env :=
  ⟨.ok rawOutlineBC, fun _ => .error ['s'], fun _ => .ok ['x']⟩


/-- Concrete oracle for the C6 witness: searches and content calls all
succeed. -/
def envC6 : Env :=
  ⟨.ok rawOutlineBC, fun _ => .ok ⟨[], []⟩, fun _ => .ok ['x']⟩


/-- A pre-run state with accumulated data, for the C10 witness. -/
def s0Busy : AppState :=
  ⟨['t'], ['a'], [['h']], [⟨['h'], ['x'], none⟩], none, false, true, false⟩


/-- Concrete oracle for the C8 counterexample: one heading "A", raw content
"hi". -/
def envC8 : Env :=
  ⟨.ok [['A']], fun _ => .error ['s'], fun _ => .ok ['h', 'i']⟩


/-!
## The search endpoint `fetch_from_internet` (for C7 and C9)

`backend/main.py`'s Agent 4: a primary DuckDuckGo scrape (`requests` +
`lxml`) whose parsed result blocks are sliced to the first 8 and filtered
for blocks carrying title, link and snippet; any scrape exception —
including the explicit `raise ValueError` when zero blocks parse — falls
back to the Serper API, which appends one entry per `organic` item of the
response with NO local slice (the request merely asks for `num: 8`).
An empty `search_results` list yields the explicit empty-result body;
otherwise the results are summarized through the key-rotation-wrapped
Gemini call and returned with one source per result.

HTTP fetching, URL unquoting (`requests.utils.unquote`) and the Gemini
summarization are external collaborators, supplied as oracle fields.
-/

/-- The extracted fields of one scraped DuckDuckGo result block (each
`xpath` list modelled by its optional first element). -/
structure RawDiv where
  titleTag : Option Str
  linkTag : Option Str
  snippetTag : Option Str
deriving DecidableEq


/-- One entry of `search_results`; fields are optional because the Serper
fallback appends `result.get(...)` values that may be missing. -/
structure SearchItem where
  title : Option Str
  link : Option Str
  snippet : Option Str
deriving DecidableEq


/-- Outcome of the primary scrape's HTTP fetch and parse. -/
inductive ScrapeOutcome where
  | fetchError
  | parsed (divs : List RawDiv)


/-- Outcome of the Serper fallback request. -/
inductive SerperOutcome where
  | fetchError
  | parsed (organic : List SearchItem)


/-- External collaborators of `fetch_from_internet`. -/
structure FetchEnv where
  scrape : ScrapeOutcome
  serperKeyConfigured : Bool
  serper : SerperOutcome
  summarize : List SearchItem → Except Str Str
  unquote : Str → Str


/-- The HTTP errors `fetch_from_internet` can raise. -/
inductive FetchError where
  /-- 501: "Primary search failed and no fallback is configured." -/
  | noFallbackConfigured
  /-- 500: "Both primary and fallback search methods failed." -/
  | bothMethodsFailed
  /-- 500: "Agent 4: Failed to summarize search results." -/
  | summarizationFailed
deriving DecidableEq


/-- The endpoint's successful response body. -/
structure FetchSuccess where
  summaryText : Str
  sources : List SourceRef
deriving DecidableEq


/-- The text before and after the first occurrence of the nonempty pattern
`p :: ps` (`none` when the pattern does not occur). -/
def splitFirst (p : Char) (ps : Str) : Str → Option (Str × Str)
  | [] => none
  | c :: rest =>
    if startsWithL (p :: ps) (c :: rest) then
      some ([], (c :: rest).drop (p :: ps).length)
    else
      (splitFirst p ps rest).map (fun pr => (c :: pr.1, pr.2))


/-- Python `s.split(pat)[-1]` for the nonempty pattern `p :: ps`: the text
after the last occurrence (the whole string when the pattern does not
occur). -/
def afterLast (p : Char) (ps : Str) (s : Str) : Str :=
  match h : splitFirst p ps s with
  | none => s
  | some pr => afterLast p ps pr.2
termination_by s.length
decreasing_by
  have key : ∀ (u : Str) (q : Str × Str), splitFirst p ps u = some q →
      q.2.length < u.length := by
    intro u
    induction u with
    | nil =>
      intro q hq
      exact absurd hq (by simp [splitFirst])
    | cons c rest ih =>
      intro q hq
      rw [splitFirst] at hq
      by_cases hs : startsWithL (p :: ps) (c :: rest) = true
      · rw [if_pos hs] at hq
        injection hq with h1
        subst h1
        simp only [List.length_drop, List.length_cons]
        omega
      · rw [if_neg hs] at hq
        cases hsp : splitFirst p ps rest with
        | none =>
          rw [hsp] at hq
          exact absurd hq (by simp)
        | some q' =>
          rw [hsp] at hq
          simp only [Option.map_some', Option.some.injEq] at hq
          have hlt := ih q' hsp
          subst hq
          simp only [List.length_cons]
          omega
  exact key s pr h


/-- Strip the DuckDuckGo redirect: `raw_link.split('uddg=')[-1]`. -/
def cleanDDGLink (rawLink : Str) : Str :=
  afterLast 'u' ['d', 'd', 'g', '='] rawLink


/-- The primary scrape's result extraction: the first 8 parsed blocks, each
kept only when title, link and snippet are all present; the link is
cleaned of the DuckDuckGo redirect and unquoted, title and snippet are
stripped. -/
def scrapeResults (unquote : Str → Str) (divs : List RawDiv) :
    List SearchItem :=
  (divs.take 8).filterMap (fun r =>
    match r.titleTag, r.linkTag, r.snippetTag with
    | some t, some l, some sn =>
      some ⟨some (trimStr t), some (unquote (cleanDDGLink l)),
        some (trimStr sn)⟩
    | _, _, _ => none)


/-- The Serper fallback: 501 when no key is configured, 500 when the
request fails, otherwise one `search_results` entry per `organic` item —
with no local cap. -/
def serperFallback (env : FetchEnv) : Except FetchError (List SearchItem) :=
  if env.serperKeyConfigured = false then .error .noFallbackConfigured
  else
    match env.serper with
    | .parsed organic => .ok organic
    | .fetchError => .error .bothMethodsFailed


/-- `search_results` after the primary/fallback phases: a scrape failure —
including the explicit `ValueError` when zero blocks parse — falls back to
Serper. -/
def gatherSearchResults (env : FetchEnv) :
    Except FetchError (List SearchItem) :=
  match env.scrape with
  | .parsed divs =>
    if divs.isEmpty then serperFallback env
    else .ok (scrapeResults env.unquote divs)
  | .fetchError => serperFallback env


/-- The summary text of the explicit empty result. -/
def noInfoMsg : Str :=
  "No relevant information could be found for this topic.".toList


/-- `fetch_from_internet`: gather results; when the list is empty, return
the explicit empty-result body; otherwise summarize with the
key-rotation-wrapped Gemini call (an oracle here) and return the stripped
summary with one `{uri, title}` source per result. -/
def fetchFromInternet (env : FetchEnv) : Except FetchError FetchSuccess :=
  match gatherSearchResults env with
  | .error e => .error e
  | .ok results =>
    if results.isEmpty then .ok ⟨noInfoMsg, []⟩
    else
      match env.summarize results with
      | .ok summary =>
        .ok ⟨trimStr summary, results.map (fun it => ⟨it.link, it.title⟩)⟩
      | .error _ => .error .summarizationFailed


/-- A Serper organic item with all fields present. -/
def serperItem (n : Char) : SearchItem := ⟨some [n], some [n], some [n]⟩


/-- Fetch environment for the C7 counterexample: the scrape fails and the
Serper fallback returns nine organic results. -/
def envC7 : FetchEnv :=
  ⟨.fetchError, true,
   .parsed [serperItem 'a', serperItem 'b', serperItem 'c', serperItem 'd',
     serperItem 'e', serperItem 'f', serperItem 'g', serperItem 'h',
     serperItem 'i'],
   fun _ => .ok ['s'], id⟩


/-- Fetch environment for the C7 witness's primary phase: two parsed
blocks, one complete and one without usable fields. -/
def envC7prim : FetchEnv :=
  ⟨.parsed [⟨some ['t'], some ['l'], some ['s']⟩, ⟨none, none, none⟩],
   true, .parsed [], fun _ => .ok ['s'], id⟩


/-- Fetch environment for C9: the scrape parses one block with no usable
fields, so the run reaches the empty-result branch without any error. -/
def envC9 : FetchEnv :=
  ⟨.parsed [⟨none, none, none⟩], true, .parsed [], fun _ => .ok ['s'], id⟩


theorem rotationLoop_of_success {N i cursor r : Nat} {call : Nat → CallOutcome}
    (hi : i < N) (hc : call i = .success r) :
    rotationLoop N call i cursor = ⟨.ok r, cursor, [cursor]⟩ := by
  unfold rotationLoop
  simp [hi, hc]


theorem rotationLoop_of_other {N i cursor m : Nat} {call : Nat → CallOutcome}
    (hi : i < N) (hc : call i = .otherError m) :
    rotationLoop N call i cursor = ⟨.requestFailed m, cursor, [cursor]⟩ := by
  unfold rotationLoop
  simp [hi, hc]


theorem rotationLoop_of_quota_last {N i cursor : Nat} {call : Nat → CallOutcome}
    (hi : i < N) (hc : call i = .quotaExceeded) (hlast : i = N - 1) :
    rotationLoop N call i cursor =
      ⟨.allKeysExhausted, (cursor + 1) % N, [cursor]⟩ := by
  unfold rotationLoop
  rw [dif_pos hi, hc]
  simp [hlast]


theorem rotationLoop_of_quota_step {N i cursor : Nat} {call : Nat → CallOutcome}
    (hi : i < N) (hc : call i = .quotaExceeded) (hlast : ¬ i = N - 1) :
    rotationLoop N call i cursor =
      ⟨(rotationLoop N call (i + 1) ((cursor + 1) % N)).result,
       (rotationLoop N call (i + 1) ((cursor + 1) % N)).finalCursor,
       cursor :: (rotationLoop N call (i + 1) ((cursor + 1) % N)).attemptKeys⟩ := by
  conv_lhs => unfold rotationLoop
  simp [hi, hc, hlast]


theorem rotationLoop_allQuota (N : Nat) (call : Nat → CallOutcome)
    (hq : ∀ i, call i = .quotaExceeded) :
    ∀ m c, 1 ≤ m → m ≤ N → c < N →
    rotationLoop N call (N - m) c =
      ⟨.allKeysExhausted, (c + m) % N,
       (List.range m).map (fun j => (c + j) % N)⟩ := by
  intro m
  induction m with
  | zero => intro c h1 _ _; omega
  | succ m ih =>
    intro c _ hmN hc
    have hi : N - (m + 1) < N := by omega
    rcases Nat.eq_zero_or_pos m with hm0 | hmpos
    · subst hm0
      rw [rotationLoop_of_quota_last hi (hq _) (by omega)]
      have : (List.range 1).map (fun j => (c + j) % N) = [c] := by
        simp [List.range_succ, Nat.mod_eq_of_lt hc]
      rw [this]
    · have hlast : ¬ N - (m + 1) = N - 1 := by omega
      rw [rotationLoop_of_quota_step hi (hq _) hlast]
      have hstep : N - (m + 1) + 1 = N - m := by omega
      have hc2 : (c + 1) % N < N := Nat.mod_lt _ (by omega)
      rw [hstep, ih ((c + 1) % N) (by omega) (by omega) hc2]
      have hcur : ((c + 1) % N + m) % N = (c + (m + 1)) % N := by
        rw [Nat.mod_add_mod]
        exact congrArg (· % N) (by omega)
      have hlist : c :: (List.range m).map (fun j => ((c + 1) % N + j) % N) =
          (List.range (m + 1)).map (fun j => (c + j) % N) := by
        rw [List.range_succ_eq_map, List.map_cons, List.map_map]
        have h0 : (c + 0) % N = c := by
          simpa using Nat.mod_eq_of_lt hc
        rw [h0]
        congr 1
        apply List.map_congr_left
        intro j _
        show ((c + 1) % N + j) % N = (c + (j + 1)) % N
        rw [Nat.mod_add_mod]
        exact congrArg (· % N) (by omega)
      rw [hcur, hlist]


theorem rotationLoop_quotaPrefix (N : Nat) (call : Nat → CallOutcome) :
    ∀ d i c, i + d < N → c < N → (∀ j, j < d → call (i + j) = .quotaExceeded) →
    rotationLoop N call i c =
      ⟨(rotationLoop N call (i + d) ((c + d) % N)).result,
       (rotationLoop N call (i + d) ((c + d) % N)).finalCursor,
       ((List.range d).map (fun j => (c + j) % N)) ++
         (rotationLoop N call (i + d) ((c + d) % N)).attemptKeys⟩ := by
  intro d
  induction d with
  | zero =>
    intro i c _ hc _
    simp [Nat.mod_eq_of_lt hc]
  | succ d ih =>
    intro i c hiN hc hq
    have hi : i < N := by omega
    have hlast : ¬ i = N - 1 := by omega
    rw [rotationLoop_of_quota_step hi (hq 0 (by omega)) hlast]
    have hc2 : (c + 1) % N < N := Nat.mod_lt _ (by omega)
    have hq2 : ∀ j, j < d → call (i + 1 + j) = .quotaExceeded := by
      intro j hj
      have h := hq (j + 1) (by omega)
      rw [show i + 1 + j = i + (j + 1) from by omega]
      exact h
    rw [ih (i + 1) ((c + 1) % N) (by omega) hc2 hq2]
    have hidx : i + 1 + d = i + (d + 1) := by omega
    have hcur : ((c + 1) % N + d) % N = (c + (d + 1)) % N := by
      rw [Nat.mod_add_mod]
      exact congrArg (· % N) (by omega)
    have hlist : (List.range (d + 1)).map (fun j => (c + j) % N) =
        c :: (List.range d).map (fun j => ((c + 1) % N + j) % N) := by
      rw [List.range_succ_eq_map, List.map_cons, List.map_map]
      have h0 : (c + 0) % N = c := by
        simpa using Nat.mod_eq_of_lt hc
      rw [h0]
      congr 1
      apply List.map_congr_left
      intro j _
      show (c + (j + 1)) % N = ((c + 1) % N + j) % N
      rw [Nat.mod_add_mod]
      exact (congrArg (· % N) (by omega : (c + 1) + j = c + (j + 1))).symm
    rw [hidx, hcur, hlist]
    rfl


theorem rotationLoop_len_le (N : Nat) (call : Nat → CallOutcome) :
    ∀ m i c, N ≤ i + m → (rotationLoop N call i c).attemptKeys.length ≤ m := by
  intro m
  induction m with
  | zero =>
    intro i c hN
    unfold rotationLoop
    simp [show ¬ i < N by omega]
  | succ m ih =>
    intro i c hN
    by_cases hi : i < N
    · cases hcall : call i with
      | success r => rw [rotationLoop_of_success hi hcall]; simp
      | otherError m' => rw [rotationLoop_of_other hi hcall]; simp
      | quotaExceeded =>
        by_cases hlast : i = N - 1
        · rw [rotationLoop_of_quota_last hi hcall hlast]; simp
        · rw [rotationLoop_of_quota_step hi hcall hlast]
          have := ih (i + 1) ((c + 1) % N) (by omega)
          simpa using Nat.succ_le_succ this
    · unfold rotationLoop
      simp [hi]


theorem rotationLoop_nonLast_quota (N : Nat) (call : Nat → CallOutcome) :
    ∀ m i c, N ≤ i + m →
    ∀ d, d + 1 < (rotationLoop N call i c).attemptKeys.length →
    call (i + d) = .quotaExceeded := by
  intro m
  induction m with
  | zero =>
    intro i c hN d hd
    rw [show rotationLoop N call i c = ⟨.exhaustedFallthrough, c, []⟩ from by
      unfold rotationLoop; simp [show ¬ i < N by omega]] at hd
    simp at hd
  | succ m ih =>
    intro i c hN d hd
    by_cases hi : i < N
    · cases hcall : call i with
      | success r =>
        rw [rotationLoop_of_success hi hcall] at hd
        simp at hd
      | otherError m' =>
        rw [rotationLoop_of_other hi hcall] at hd
        simp at hd
      | quotaExceeded =>
        by_cases hlast : i = N - 1
        · rw [rotationLoop_of_quota_last hi hcall hlast] at hd
          simp at hd
        · rw [rotationLoop_of_quota_step hi hcall hlast] at hd
          simp only [List.length_cons] at hd
          cases d with
          | zero => simpa using hcall
          | succ e =>
            have h := ih (i + 1) ((c + 1) % N) (by omega) e (by omega)
            rw [show i + (e + 1) = i + 1 + e from by omega]
            exact h
    · rw [show rotationLoop N call i c = ⟨.exhaustedFallthrough, c, []⟩ from by
        unfold rotationLoop; simp [hi]] at hd
      simp at hd


theorem filter_range_le_one (L : Nat) (p : Nat → Bool)
    (h : ∀ d, d + 1 < L → p d = false) :
    ((List.range L).filter p).length ≤ 1 := by
  cases L with
  | zero => simp
  | succ K =>
    rw [List.range_succ, List.filter_append]
    have hnil : (List.range K).filter p = [] := by
      rw [List.filter_eq_nil_iff]
      intro a ha
      rw [List.mem_range] at ha
      simp [h a (by omega)]
    rw [hnil]
    simp only [List.nil_append]
    by_cases hp : p K <;> simp [hp]


/-- C1: for every pool of `N ≥ 1` credentials, a single invocation of
`with_api_key_rotation` in which every underlying model call raises the
quota-exceeded condition performs exactly `N` attempts, using each credential
exactly once (starting from the current cursor and advancing by one mod `N`
after each quota failure), and then fails with `AllKeysExhausted`; moreover,
for every behaviour of the underlying call, an invocation makes at most `N`
attempts and at most one of its attempts can be a successful underlying
call. -/
theorem claimC1_quota_exhaustion (N c0 : Nat) (call : Nat → CallOutcome)
    (hN : 1 ≤ N) (hc : c0 < N) (hq : ∀ i, call i = .quotaExceeded) :
    (withApiKeyRotation N call c0).result = .allKeysExhausted ∧
    (withApiKeyRotation N call c0).attemptKeys =
      (List.range N).map (fun j => (c0 + j) % N) ∧
    (withApiKeyRotation N call c0).attemptKeys.length = N ∧
    (∀ k, k < N → (withApiKeyRotation N call c0).attemptKeys.count k = 1) ∧
    (∀ (call2 : Nat → CallOutcome) (c : Nat),
      (withApiKeyRotation N call2 c).attemptKeys.length ≤ N ∧
      ((List.range (withApiKeyRotation N call2 c).attemptKeys.length).filter
          (fun d => isSuccess (call2 d))).length ≤ 1) := by
  have hrun : withApiKeyRotation N call c0 =
      ⟨.allKeysExhausted, (c0 + N) % N,
       (List.range N).map (fun j => (c0 + j) % N)⟩ := by
    have h := rotationLoop_allQuota N call hq N c0 hN (le_refl N) hc
    rw [Nat.sub_self] at h
    exact h
  have hnodup : ((List.range N).map (fun j => (c0 + j) % N)).Nodup := by
    refine List.Nodup.map_on ?_ (List.nodup_range N)
    intro x hx y hy hxy
    rw [List.mem_range] at hx hy
    have hmod : Nat.ModEq N (c0 + x) (c0 + y) := hxy
    have h2 := Nat.ModEq.add_left_cancel' c0 hmod
    have h3 : x % N = y % N := h2
    rwa [Nat.mod_eq_of_lt hx, Nat.mod_eq_of_lt hy] at h3
  have hmem : ∀ k, k < N → k ∈ (List.range N).map (fun j => (c0 + j) % N) := by
    intro k hk
    rw [List.mem_map]
    refine ⟨(k + N - c0) % N, ?_, ?_⟩
    · rw [List.mem_range]
      exact Nat.mod_lt _ (by omega)
    · show (c0 + (k + N - c0) % N) % N = k
      rw [Nat.add_mod_mod, show c0 + (k + N - c0) = k + N from by omega,
        Nat.add_mod_right]
      exact Nat.mod_eq_of_lt hk
  refine ⟨by rw [hrun], by rw [hrun], by rw [hrun]; simp, ?_, ?_⟩
  · intro k hk
    rw [hrun]
    exact List.count_eq_one_of_mem hnodup (hmem k hk)
  · intro call2 c
    constructor
    · exact rotationLoop_len_le N call2 N 0 c (by omega)
    · apply filter_range_le_one
      intro d hd
      have h := rotationLoop_nonLast_quota N call2 N 0 c (by omega) d hd
      rw [Nat.zero_add] at h
      rw [h]
      rfl


/-- Witness for C1: a pool of three keys with the cursor at 1 and every call
rate-limited makes exactly the three attempts 1, 2, 0 and exhausts all
keys. -/
theorem claimC1_quota_exhaustion_witness :
    (withApiKeyRotation 3 (fun _ => .quotaExceeded) 1).result =
      .allKeysExhausted ∧
    (withApiKeyRotation 3 (fun _ => .quotaExceeded) 1).attemptKeys =
      [1, 2, 0] := by
  have h := claimC1_quota_exhaustion 3 1 (fun _ => .quotaExceeded)
    (by decide) (by decide) (fun _ => rfl)
  refine ⟨h.1, ?_⟩
  rw [h.2.1]
  decide


/-- C3: if some attempt of `with_api_key_rotation` raises an error classified
as non-quota (here: after `k` quota failures), the invocation fails
immediately with `RequestFailed`: the failing attempt is the last attempt
made, and the rotation cursor is left exactly where it was before that
attempt, namely at the key index that attempt read (no rotation on a
non-quota error). -/
theorem claimC3_nonquota_abort (N c0 k m : Nat) (call : Nat → CallOutcome)
    (hN : 1 ≤ N) (hc : c0 < N) (hk : k < N)
    (hq : ∀ j, j < k → call j = .quotaExceeded)
    (he : call k = .otherError m) :
    (withApiKeyRotation N call c0).result = .requestFailed m ∧
    (withApiKeyRotation N call c0).finalCursor = (c0 + k) % N ∧
    (withApiKeyRotation N call c0).attemptKeys.length = k + 1 ∧
    (withApiKeyRotation N call c0).attemptKeys.getLast? =
      some ((c0 + k) % N) := by
  have hpre := rotationLoop_quotaPrefix N call k 0 c0 (by omega) hc
    (by intro j hj; rw [Nat.zero_add]; exact hq j hj)
  have hterm : rotationLoop N call (0 + k) ((c0 + k) % N) =
      ⟨.requestFailed m, (c0 + k) % N, [(c0 + k) % N]⟩ :=
    rotationLoop_of_other (by omega) (by rw [Nat.zero_add]; exact he)
  rw [hterm] at hpre
  have hrun : withApiKeyRotation N call c0 =
      ⟨.requestFailed m, (c0 + k) % N,
       ((List.range k).map (fun j => (c0 + j) % N)) ++ [(c0 + k) % N]⟩ := by
    unfold withApiKeyRotation
    rw [hpre]
  refine ⟨by rw [hrun], by rw [hrun], by rw [hrun]; simp, ?_⟩
  rw [hrun]
  exact List.getLast?_concat _


/-- Witness for C3: two keys, cursor at 0; the first attempt hits quota, the
second raises a non-quota error: the invocation fails with `RequestFailed`,
exactly two attempts are made, and the cursor stays at key 1, the key the
failing attempt used. -/
theorem claimC3_nonquota_abort_witness :
    (withApiKeyRotation 2
        (fun j => if j = 0 then .quotaExceeded else .otherError 7) 0).result =
      .requestFailed 7 ∧
    (withApiKeyRotation 2
        (fun j => if j = 0 then .quotaExceeded else .otherError 7)
        0).finalCursor = 1 ∧
    (withApiKeyRotation 2
        (fun j => if j = 0 then .quotaExceeded else .otherError 7)
        0).attemptKeys.length = 2 := by
  have h := claimC3_nonquota_abort 2 0 1 7
    (fun j => if j = 0 then .quotaExceeded else .otherError 7)
    (by decide) (by decide) (by decide)
    (by intro j hj; rw [Nat.lt_one_iff] at hj; subst hj; rfl) rfl
  exact ⟨h.1, h.2.1, h.2.2.1⟩


/-- C4: for a pool of `N ≥ 2` credentials, if attempt `k + 1` of
`with_api_key_rotation` succeeds after `k` quota failures, the invocation
returns that response and the rotation cursor afterwards points at exactly
the credential the successful attempt used: success causes no additional
cursor movement. -/
theorem claimC4_cursor_after_success (N c0 k r : Nat) (call : Nat → CallOutcome)
    (hN : 2 ≤ N) (hc : c0 < N) (hk : k < N)
    (hq : ∀ j, j < k → call j = .quotaExceeded)
    (hs : call k = .success r) :
    (withApiKeyRotation N call c0).result = .ok r ∧
    (withApiKeyRotation N call c0).finalCursor = (c0 + k) % N ∧
    (withApiKeyRotation N call c0).attemptKeys.getLast? =
      some ((c0 + k) % N) ∧
    (withApiKeyRotation N call c0).attemptKeys.length = k + 1 := by
  have hpre := rotationLoop_quotaPrefix N call k 0 c0 (by omega) hc
    (by intro j hj; rw [Nat.zero_add]; exact hq j hj)
  have hterm : rotationLoop N call (0 + k) ((c0 + k) % N) =
      ⟨.ok r, (c0 + k) % N, [(c0 + k) % N]⟩ :=
    rotationLoop_of_success (by omega) (by rw [Nat.zero_add]; exact hs)
  rw [hterm] at hpre
  have hrun : withApiKeyRotation N call c0 =
      ⟨.ok r, (c0 + k) % N,
       ((List.range k).map (fun j => (c0 + j) % N)) ++ [(c0 + k) % N]⟩ := by
    unfold withApiKeyRotation
    rw [hpre]
  refine ⟨by rw [hrun], by rw [hrun], ?_, by rw [hrun]; simp⟩
  rw [hrun]
  exact List.getLast?_concat _


/-- Witness for C4: two keys, cursor at 1; attempt 1 hits quota (advancing the
cursor to 0), attempt 2 succeeds using key 0, and the cursor stays at 0
afterwards. -/
theorem claimC4_cursor_after_success_witness :
    (withApiKeyRotation 2
        (fun j => if j = 0 then .quotaExceeded else .success 5) 1).result =
      .ok 5 ∧
    (withApiKeyRotation 2
        (fun j => if j = 0 then .quotaExceeded else .success 5)
        1).finalCursor = 0 ∧
    (withApiKeyRotation 2
        (fun j => if j = 0 then .quotaExceeded else .success 5)
        1).attemptKeys.getLast? = some 0 := by
  have h := claimC4_cursor_after_success 2 1 1 5
    (fun j => if j = 0 then .quotaExceeded else .success 5)
    (by decide) (by decide) (by decide)
    (by intro j hj; rw [Nat.lt_one_iff] at hj; subst hj; rfl) rfl
  exact ⟨h.1, h.2.1, h.2.2.1⟩


theorem expectedParts_length (env : Env) :
    ∀ (entries : List PlanEntry) (i : Nat),
    (expectedParts env entries i).length = entries.length := by
  intro entries
  induction entries with
  | nil => intro i; rfl
  | cons e rest ih => intro i; simp [expectedParts, ih]


theorem expectedParts_getElem (env : Env) :
    ∀ (entries : List PlanEntry) (i j : Nat),
    (expectedParts env entries i)[j]? =
      (entries[j]?).map (fun e => mkPartFor env e (i + j)) := by
  intro entries
  induction entries with
  | nil => intro i j; simp [expectedParts]
  | cons e rest ih =>
    intro i j
    cases j with
    | zero => simp [expectedParts]
    | succ j' =>
      simp only [expectedParts, List.getElem?_cons_succ]
      rw [ih (i + 1) j', show i + 1 + j' = i + (j' + 1) from by omega]


theorem searchCall_mem_expectedEvents :
    ∀ (entries : List PlanEntry) (i j : Nat),
    Event.searchCall j ∈ expectedEvents entries i ↔
      ∃ e, entries[j - i]? = some e ∧ i ≤ j ∧ e.requiresSearch = true := by
  intro entries
  induction entries with
  | nil => intro i j; simp [expectedEvents]
  | cons e rest ih =>
    intro i j
    have hstep : Event.searchCall j ∈ expectedEvents (e :: rest) i ↔
        (e.requiresSearch = true ∧ j = i) ∨
          Event.searchCall j ∈ expectedEvents rest (i + 1) := by
      simp only [expectedEvents, List.mem_append]
      constructor
      · rintro ((h | h) | h)
        · rcases hreq : e.requiresSearch with _ | _
          · rw [hreq] at h; simp at h
          · rw [hreq] at h
            simp at h
            exact Or.inl ⟨rfl, h⟩
        · simp at h
        · exact Or.inr h
      · rintro (⟨hreq, hj⟩ | h)
        · left; left
          rw [hreq, hj]
          simp
        · right; exact h
    rw [hstep, ih (i + 1) j]
    rcases Nat.lt_trichotomy j i with hlt | heq | hgt
    · constructor
      · rintro (⟨_, hj⟩ | ⟨e', _, hij, _⟩) <;> omega
      · rintro ⟨e', _, hij, _⟩; omega
    · subst heq
      constructor
      · rintro (⟨hreq, _⟩ | ⟨e', _, hij, _⟩)
        · exact ⟨e, by simp [Nat.sub_self], le_refl j, hreq⟩
        · omega
      · rintro ⟨e', he', _, hreq⟩
        rw [Nat.sub_self] at he'
        simp at he'
        subst he'
        exact Or.inl ⟨hreq, rfl⟩
    · have hsub : j - i = (j - (i + 1)) + 1 := by omega
      constructor
      · rintro (⟨_, hj⟩ | ⟨e', he', _, hreq⟩)
        · omega
        · exact ⟨e', by rw [hsub, List.getElem?_cons_succ]; exact he',
            by omega, hreq⟩
      · rintro ⟨e', he', _, hreq⟩
        rw [hsub, List.getElem?_cons_succ] at he'
        exact Or.inr ⟨e', he', by omega, hreq⟩


theorem sectionLoop_cons_error (env : Env) (e : PlanEntry)
    (rest : List PlanEntry) (i : Nat) (ctx : Str) (s : AppState) (m : Str)
    (hm : env.contentResult i = .error m) :
    sectionLoop env (e :: rest) i ctx s =
      ({ s with error := some m, isLoading := false },
       (if e.requiresSearch then [Event.searchCall i] else []) ++
         [Event.contentCall i]) := by
  simp only [sectionLoop]
  rw [hm]


theorem sectionLoop_cons_ok (env : Env) (e : PlanEntry)
    (rest : List PlanEntry) (i : Nat) (ctx : Str) (s : AppState) (c : Str)
    (hc : env.contentResult i = .ok c) :
    sectionLoop env (e :: rest) i ctx s =
      ((sectionLoop env rest (i + 1)
          (mkPrevCtx e.cleaned (stripHeading e.cleaned c))
          { s with completedTutorialParts :=
              s.completedTutorialParts ++ [mkPartFor env e i] }).1,
       (if e.requiresSearch then [Event.searchCall i] else []) ++
         [Event.contentCall i] ++
         (sectionLoop env rest (i + 1)
            (mkPrevCtx e.cleaned (stripHeading e.cleaned c))
            { s with completedTutorialParts :=
                s.completedTutorialParts ++ [mkPartFor env e i] }).2) := by
  simp only [sectionLoop]
  rw [hc]
  cases hrs : e.requiresSearch with
  | false => simp [mkPartFor, hc, hrs]
  | true =>
    cases hsr : env.searchResult i <;>
      simp [mkPartFor, hc, hrs, hsr, Except.toOption]


theorem sectionLoop_allOk (env : Env) :
    ∀ (entries : List PlanEntry) (i : Nat) (ctx : Str) (s : AppState),
    (∀ j, i ≤ j → j < i + entries.length → ∃ c, env.contentResult j = .ok c) →
    sectionLoop env entries i ctx s =
      ({ s with
          completedTutorialParts :=
            s.completedTutorialParts ++ expectedParts env entries i,
          isTutorialComplete := true,
          isLoading := false },
       expectedEvents entries i) := by
  intro entries
  induction entries with
  | nil =>
    intro i ctx s _
    simp [sectionLoop, expectedParts, expectedEvents]
  | cons e rest ih =>
    intro i ctx s hok
    obtain ⟨c, hc⟩ :=
      hok i (le_refl i) (by simp only [List.length_cons]; omega)
    rw [sectionLoop_cons_ok env e rest i ctx s c hc]
    rw [ih (i + 1) _ _ (fun j h1 h2 =>
      hok j (by omega) (by simp only [List.length_cons]; omega))]
    simp [expectedParts, expectedEvents, List.append_assoc]


theorem sectionLoop_failsAt (env : Env) :
    ∀ (entries : List PlanEntry) (i K : Nat) (m : Str) (ctx : Str)
      (s : AppState),
    i ≤ K → K < i + entries.length →
    (∀ j, i ≤ j → j < K → ∃ c, env.contentResult j = .ok c) →
    env.contentResult K = .error m →
    (sectionLoop env entries i ctx s).1.error = some m ∧
    (sectionLoop env entries i ctx s).1.isTutorialComplete =
      s.isTutorialComplete ∧
    (sectionLoop env entries i ctx s).1.isLoading = false ∧
    (sectionLoop env entries i ctx s).1.completedTutorialParts =
      s.completedTutorialParts ++
        expectedParts env (entries.take (K - i)) i ∧
    (∀ ev ∈ (sectionLoop env entries i ctx s).2, ∀ j,
      (ev = Event.searchCall j ∨ ev = Event.contentCall j) → j ≤ K) := by
  intro entries
  induction entries with
  | nil =>
    intro i K m ctx s h1 h2 _ _
    simp only [List.length_nil] at h2
    omega
  | cons e rest ih =>
    intro i K m ctx s hiK hKlen hok herr
    by_cases hKi : K = i
    · subst hKi
      rw [sectionLoop_cons_error env e rest K ctx s m herr]
      refine ⟨rfl, rfl, rfl, ?_, ?_⟩
      · simp [Nat.sub_self, expectedParts]
      · intro ev hev j hj
        have hev' : ev = Event.searchCall K ∨ ev = Event.contentCall K := by
          rcases hrs : e.requiresSearch with _ | _ <;> rw [hrs] at hev <;>
            simp at hev
          · exact Or.inr hev
          · exact hev
        rcases hev' with h' | h' <;> subst h' <;>
          rcases hj with hj | hj <;> simp at hj <;> omega
    · have hiK' : i < K := by omega
      obtain ⟨c, hc⟩ := hok i (le_refl i) hiK'
      rw [sectionLoop_cons_ok env e rest i ctx s c hc]
      have hrec := ih (i + 1) K m
        (mkPrevCtx e.cleaned (stripHeading e.cleaned c))
        { s with completedTutorialParts :=
            s.completedTutorialParts ++ [mkPartFor env e i] }
        (by omega) (by simp only [List.length_cons] at hKlen; omega)
        (fun j hj1 hj2 => hok j (by omega) hj2) herr
      refine ⟨hrec.1, hrec.2.1, hrec.2.2.1, ?_, ?_⟩
      · rw [hrec.2.2.2.1]
        have ht : K - i = (K - (i + 1)) + 1 := by omega
        rw [ht, List.take_succ_cons]
        simp [expectedParts, List.append_assoc]
      · intro ev hev j hj
        simp only [List.mem_append] at hev
        rcases hev with (hev | hev) | hev
        · have hev' : ev = Event.searchCall i := by
            rcases hrs : e.requiresSearch with _ | _ <;> rw [hrs] at hev <;>
              simp at hev
            exact hev
          subst hev'
          rcases hj with hj | hj <;> simp at hj <;> omega
        · simp only [List.mem_singleton] at hev
          subst hev
          rcases hj with hj | hj <;> simp at hj <;> omega
        · exact hrec.2.2.2.2 ev hev j hj


theorem startFull_run (env : Env) (s0 : AppState)
    (currentTopic selectedAudience : Str) (raws : List Str)
    (htopic : (trimStr currentTopic).isEmpty = false)
    (houtline : env.outlineResult = .ok raws)
    (hne : raws ≠ []) :
    startFullGenerationProcess env s0 currentTopic selectedAudience =
      ((sectionLoop env (raws.map mkPlanEntry) 0 initialPrevCtx
          { s0 with
            topic := currentTopic
            audience := selectedAudience
            outlineHeadings :=
              (raws.map mkPlanEntry).map (fun e => e.cleaned)
            completedTutorialParts := []
            error := none
            isLoading := true
            isTutorialComplete := false
            showFullScreenTutorial := false }).1,
       Event.outlineCall ::
         (sectionLoop env (raws.map mkPlanEntry) 0 initialPrevCtx
            { s0 with
              topic := currentTopic
              audience := selectedAudience
              outlineHeadings :=
                (raws.map mkPlanEntry).map (fun e => e.cleaned)
              completedTutorialParts := []
              error := none
              isLoading := true
              isTutorialComplete := false
              showFullScreenTutorial := false }).2) := by
  have hE : raws.isEmpty = false := by
    cases raws
    · exact absurd rfl hne
    · rfl
  unfold startFullGenerationProcess
  rw [htopic, houtline]
  simp [hE]


/-- C2: if content generation for entry `k` (1-indexed) fails after the
invoker's retries are exhausted (the thrown error reaching the pipeline's
`catch`), the run terminates as Failed — the error is recorded, the
completion flag stays false — no section at or beyond entry `k` is searched
or generated, and the progressive output store holds exactly the `k - 1`
artifacts of entries `1 .. k-1`. -/
theorem claimC2_failure_stops_run (env : Env) (s0 : AppState)
    (currentTopic selectedAudience : Str) (raws : List Str) (k : Nat) (m : Str)
    (htopic : (trimStr currentTopic).isEmpty = false)
    (houtline : env.outlineResult = .ok raws)
    (hk1 : 1 ≤ k) (hkn : k ≤ raws.length)
    (hok : ∀ j, j < k - 1 → ∃ c, env.contentResult j = .ok c)
    (herr : env.contentResult (k - 1) = .error m) :
    (startFullGenerationProcess env s0 currentTopic selectedAudience).1.error =
      some m ∧
    (startFullGenerationProcess env s0 currentTopic
        selectedAudience).1.isTutorialComplete = false ∧
    (startFullGenerationProcess env s0 currentTopic
        selectedAudience).1.isLoading = false ∧
    (startFullGenerationProcess env s0 currentTopic
        selectedAudience).1.completedTutorialParts =
      expectedParts env ((raws.map mkPlanEntry).take (k - 1)) 0 ∧
    (startFullGenerationProcess env s0 currentTopic
        selectedAudience).1.completedTutorialParts.length = k - 1 ∧
    (∀ ev ∈ (startFullGenerationProcess env s0 currentTopic
        selectedAudience).2, ∀ j,
      (ev = Event.searchCall j ∨ ev = Event.contentCall j) → j < k) := by
  have hne : raws ≠ [] := by
    intro hraw
    subst hraw
    simp only [List.length_nil] at hkn
    omega
  rw [startFull_run env s0 currentTopic selectedAudience raws htopic
    houtline hne]
  have hfail := sectionLoop_failsAt env (raws.map mkPlanEntry) 0 (k - 1) m
    initialPrevCtx
    { s0 with
      topic := currentTopic
      audience := selectedAudience
      outlineHeadings := (raws.map mkPlanEntry).map (fun e => e.cleaned)
      completedTutorialParts := []
      error := none
      isLoading := true
      isTutorialComplete := false
      showFullScreenTutorial := false }
    (by omega) (by simp only [Nat.zero_add, List.length_map]; omega)
    (fun j _ hj2 => hok j hj2) herr
  refine ⟨hfail.1, hfail.2.1, hfail.2.2.1, hfail.2.2.2.1, ?_, ?_⟩
  · rw [hfail.2.2.2.1]
    simp only [List.nil_append, List.length_append, List.length_nil,
      expectedParts_length, List.length_take, List.length_map, Nat.sub_zero,
      Nat.zero_add]
    omega
  · intro ev hev j hj
    rcases List.mem_cons.mp hev with hev' | hev'
    · subst hev'
      rcases hj with hj | hj <;> simp at hj
    · have := hfail.2.2.2.2 ev hev' j hj
      omega


/-- C5: search-resolver failures are absorbed: whenever every content call
succeeds, the run completes with exactly one artifact per outline entry,
whatever the per-section search results were — including failures — and a
section whose search call failed still gets its artifact, just with no
sources attached.  In particular a resolver failure never terminates the
run. -/
theorem claimC5_search_failure_absorbed (env : Env) (s0 : AppState)
    (currentTopic selectedAudience : Str) (raws : List Str)
    (htopic : (trimStr currentTopic).isEmpty = false)
    (houtline : env.outlineResult = .ok raws)
    (hne : raws ≠ [])
    (hok : ∀ j, j < raws.length → ∃ c, env.contentResult j = .ok c) :
    (startFullGenerationProcess env s0 currentTopic
        selectedAudience).1.isTutorialComplete = true ∧
    (startFullGenerationProcess env s0 currentTopic
        selectedAudience).1.error = none ∧
    (startFullGenerationProcess env s0 currentTopic
        selectedAudience).1.completedTutorialParts =
      expectedParts env (raws.map mkPlanEntry) 0 ∧
    (startFullGenerationProcess env s0 currentTopic
        selectedAudience).1.completedTutorialParts.length = raws.length ∧
    (∀ j p em, env.searchResult j = .error em →
      (startFullGenerationProcess env s0 currentTopic
          selectedAudience).1.completedTutorialParts[j]? = some p →
      p.sources = none) := by
  rw [startFull_run env s0 currentTopic selectedAudience raws htopic
    houtline hne]
  rw [sectionLoop_allOk env (raws.map mkPlanEntry) 0 initialPrevCtx _
    (fun j _ hj2 => hok j
      (by simp only [Nat.zero_add, List.length_map] at hj2; exact hj2))]
  refine ⟨rfl, rfl, rfl, ?_, ?_⟩
  · show ((List.nil : List FormattedTutorialPart) ++
      expectedParts env (raws.map mkPlanEntry) 0).length = raws.length
    rw [List.nil_append, expectedParts_length, List.length_map]
  · intro j p em hsr hp
    have hp' : (expectedParts env (raws.map mkPlanEntry) 0)[j]? = some p := hp
    rw [expectedParts_getElem] at hp'
    cases hplan : (raws.map mkPlanEntry)[j]? with
    | none => rw [hplan] at hp'; simp at hp'
    | some e =>
      rw [hplan] at hp'
      have hj : j < raws.length := by
        by_contra hge
        rw [List.getElem?_eq_none
          (by simp only [List.length_map]; omega)] at hplan
        exact Option.noConfusion hplan
      simp at hp'
      subst hp'
      obtain ⟨c, hc⟩ := hok j hj
      cases hrs : e.requiresSearch with
      | false => simp [mkPartFor, hc, hrs]
      | true => simp [mkPartFor, hc, hrs, hsr, Except.toOption]


/-- C6: for every raw outline, each published heading equals the raw heading
with the first occurrence of the marker token "(requires_search)" removed
and the surrounding whitespace trimmed, and (in a run whose content calls
all succeed) the search resolver is invoked for entry `j` if and only if
entry `j` exists and its raw heading contains the marker. -/
theorem claimC6_marker_iff_search (env : Env) (s0 : AppState)
    (currentTopic selectedAudience : Str) (raws : List Str)
    (htopic : (trimStr currentTopic).isEmpty = false)
    (houtline : env.outlineResult = .ok raws)
    (hne : raws ≠ [])
    (hok : ∀ j, j < raws.length → ∃ c, env.contentResult j = .ok c) :
    (startFullGenerationProcess env s0 currentTopic
        selectedAudience).1.outlineHeadings =
      raws.map (fun r => trimStr (removeFirst marker r)) ∧
    (∀ j, Event.searchCall j ∈
        (startFullGenerationProcess env s0 currentTopic selectedAudience).2 ↔
      ∃ r, raws[j]? = some r ∧ containsSub marker r = true) := by
  rw [startFull_run env s0 currentTopic selectedAudience raws htopic
    houtline hne]
  rw [sectionLoop_allOk env (raws.map mkPlanEntry) 0 initialPrevCtx _
    (fun j _ hj2 => hok j
      (by simp only [Nat.zero_add, List.length_map] at hj2; exact hj2))]
  constructor
  · show (raws.map mkPlanEntry).map (fun e => e.cleaned) =
      raws.map (fun r => trimStr (removeFirst marker r))
    rw [List.map_map]
    rfl
  · intro j
    show Event.searchCall j ∈
        Event.outlineCall :: expectedEvents (raws.map mkPlanEntry) 0 ↔ _
    rw [List.mem_cons]
    constructor
    · rintro (habs | hmem)
      · simp at habs
      · obtain ⟨e, he, _, hreq⟩ :=
          (searchCall_mem_expectedEvents (raws.map mkPlanEntry) 0 j).mp hmem
        rw [Nat.sub_zero, List.getElem?_map] at he
        cases hr : raws[j]? with
        | none => rw [hr] at he; exact Option.noConfusion he
        | some r =>
          rw [hr] at he
          simp at he
          subst he
          exact ⟨r, rfl, hreq⟩
    · rintro ⟨r, hr, hcont⟩
      right
      refine (searchCall_mem_expectedEvents (raws.map mkPlanEntry) 0 j).mpr
        ⟨mkPlanEntry r, ?_, Nat.zero_le j, hcont⟩
      rw [Nat.sub_zero, List.getElem?_map, hr]
      rfl


/-- C10 (implicit): starting the pipeline with a blank (empty or
whitespace-only) topic is rejected before any stage executes: no agent call
is made, the validation message is recorded, and all other state — in
particular the accumulated tutorial parts, outline headings and completion
flag — is left unchanged (the per-run reset happens only for a non-blank
topic). -/
theorem claimC10_blank_topic_rejected (env : Env) (s0 : AppState)
    (currentTopic selectedAudience : Str)
    (h : (trimStr currentTopic).isEmpty = true) :
    (startFullGenerationProcess env s0 currentTopic selectedAudience).2 =
      [] ∧
    (startFullGenerationProcess env s0 currentTopic
        selectedAudience).1.completedTutorialParts =
      s0.completedTutorialParts ∧
    (startFullGenerationProcess env s0 currentTopic
        selectedAudience).1.outlineHeadings = s0.outlineHeadings ∧
    (startFullGenerationProcess env s0 currentTopic
        selectedAudience).1.isTutorialComplete = s0.isTutorialComplete ∧
    (startFullGenerationProcess env s0 currentTopic
        selectedAudience).1.topic = s0.topic ∧
    (startFullGenerationProcess env s0 currentTopic
        selectedAudience).1.audience = s0.audience ∧
    (startFullGenerationProcess env s0 currentTopic
        selectedAudience).1.isLoading = s0.isLoading ∧
    (startFullGenerationProcess env s0 currentTopic
        selectedAudience).1.showFullScreenTutorial =
      s0.showFullScreenTutorial ∧
    (startFullGenerationProcess env s0 currentTopic
        selectedAudience).1.error = some topicEmptyMsg := by
  unfold startFullGenerationProcess
  rw [h]
  simp


/-- Witness for C2: with the 3-entry outline A, B, C and content generation
failing at entry 2, the run fails with that error, is not complete, and
stores exactly 1 artifact. -/
theorem claimC2_failure_stops_run_witness :
    (startFullGenerationProcess envC2 s0Init ['t'] ['a']).1.error =
      some ['e'] ∧
    (startFullGenerationProcess envC2 s0Init
        ['t'] ['a']).1.isTutorialComplete = false ∧
    (startFullGenerationProcess envC2 s0Init
        ['t'] ['a']).1.completedTutorialParts.length = 1 := by
  have h := claimC2_failure_stops_run envC2 s0Init ['t'] ['a']
    [['A'], ['B'], ['C']] 2 ['e'] (by decide) rfl (by decide) (by decide)
    (fun j hj => ⟨['x'], by
      have hj0 : j = 0 := by omega
      subst hj0
      rfl⟩)
    rfl
  exact ⟨h.1, h.2.1, h.2.2.2.2.1⟩


/-- Witness for C5: with searches failing, the run still completes with 3
artifacts, and the artifact of the marked entry ("B") exists with no
sources. -/
theorem claimC5_search_failure_absorbed_witness :
    (startFullGenerationProcess envC5 s0Init
        ['t'] ['a']).1.isTutorialComplete = true ∧
    (startFullGenerationProcess envC5 s0Init
        ['t'] ['a']).1.completedTutorialParts.length = 3 ∧
    (startFullGenerationProcess envC5 s0Init
        ['t'] ['a']).1.completedTutorialParts[1]? =
      some ⟨['B'], ['#', '#', ' ', 'B', '\n', '\n', 'x', '\n', '\n'],
        none⟩ := by
  have h := claimC5_search_failure_absorbed envC5 s0Init ['t'] ['a']
    rawOutlineBC (by decide) rfl (by decide) (fun j _ => ⟨['x'], rfl⟩)
  refine ⟨h.1, h.2.2.2.1, ?_⟩
  rw [h.2.2.1]
  decide


/-- Witness for C6: on the raw outline A, "B (requires_search)", C the
cleaned heading list is A, B, C and the search resolver is invoked exactly
for entry 2. -/
theorem claimC6_marker_iff_search_witness :
    (startFullGenerationProcess envC6 s0Init
        ['t'] ['a']).1.outlineHeadings = [['A'], ['B'], ['C']] ∧
    Event.searchCall 1 ∈
      (startFullGenerationProcess envC6 s0Init ['t'] ['a']).2 ∧
    ¬ Event.searchCall 0 ∈
      (startFullGenerationProcess envC6 s0Init ['t'] ['a']).2 ∧
    ¬ Event.searchCall 2 ∈
      (startFullGenerationProcess envC6 s0Init ['t'] ['a']).2 := by
  have h := claimC6_marker_iff_search envC6 s0Init ['t'] ['a'] rawOutlineBC
    (by decide) rfl (by decide) (fun j _ => ⟨['x'], rfl⟩)
  refine ⟨?_, ?_, ?_, ?_⟩
  · rw [h.1]
    decide
  · exact (h.2 1).mpr ⟨['B', ' '] ++ marker, rfl, by decide⟩
  · intro hmem
    obtain ⟨r, hr, hcont⟩ := (h.2 0).mp hmem
    have hr0 : rawOutlineBC[0]? = some ['A'] := rfl
    rw [hr0] at hr
    have := Option.some.inj hr
    subst this
    exact absurd hcont (by decide)
  · intro hmem
    obtain ⟨r, hr, hcont⟩ := (h.2 2).mp hmem
    have hr2 : rawOutlineBC[2]? = some ['C'] := rfl
    rw [hr2] at hr
    have := Option.some.inj hr
    subst this
    exact absurd hcont (by decide)


/-- Witness for C10: a whitespace-only topic makes no agent call and leaves
the accumulated parts, headings and completion flag of a busy state
unchanged. -/
theorem claimC10_blank_topic_rejected_witness :
    (startFullGenerationProcess envC2 s0Busy [' ', '\t'] ['a']).2 = [] ∧
    (startFullGenerationProcess envC2 s0Busy
        [' ', '\t'] ['a']).1.completedTutorialParts =
      [⟨['h'], ['x'], none⟩] ∧
    (startFullGenerationProcess envC2 s0Busy
        [' ', '\t'] ['a']).1.outlineHeadings = [['h']] ∧
    (startFullGenerationProcess envC2 s0Busy
        [' ', '\t'] ['a']).1.isTutorialComplete = true := by
  have h := claimC10_blank_topic_rejected envC2 s0Busy [' ', '\t'] ['a']
    (by decide)
  exact ⟨h.1, h.2.1, h.2.2.1, h.2.2.2.1⟩


/-!
## Heading-strip / format algebra (for C8)

`App.tsx` wraps the stripped content back up as
"## heading", blank line, cleaned content, blank line.  The lemmas below
establish what re-running the strip on that wrapper yields.
-/

theorem startsWithL_append (p s : Str) : startsWithL p (p ++ s) = true := by
  induction p with
  | nil => rfl
  | cons a ps ih => simp [startsWithL, ih]


theorem dropWhile_head_not (p : Char → Bool) :
    ∀ (s : Str) (c : Char) (rest : Str),
    s.dropWhile p = c :: rest → p c = false := by
  intro s
  induction s with
  | nil =>
    intro c rest h
    exact absurd h (by simp)
  | cons a s ih =>
    intro c rest h
    rw [List.dropWhile_cons] at h
    by_cases hp : p a = true
    · rw [if_pos hp] at h
      exact ih c rest h
    · rw [if_neg hp] at h
      injection h with h1 _
      subst h1
      simpa using hp


theorem dropWhile_idem (p : Char → Bool) (s : Str) :
    (s.dropWhile p).dropWhile p = s.dropWhile p := by
  cases h : s.dropWhile p with
  | nil => rfl
  | cons c rest =>
    have hc := dropWhile_head_not p s c rest h
    rw [List.dropWhile_cons, if_neg (by simp [hc])]


theorem trimRight_trimRight (s : Str) :
    trimRight (trimRight s) = trimRight s := by
  unfold trimRight
  rw [List.reverse_reverse, dropWhile_idem]


theorem trimRight_prefix (s : Str) : trimRight s <+: s := by
  have h : s.reverse.dropWhile isWs <:+ s.reverse := List.dropWhile_suffix _
  have h2 := List.reverse_prefix.mpr h
  rwa [List.reverse_reverse] at h2


theorem trim_eq_self (s : Str) (h : trimStr s = s) :
    trimLeft s = s ∧ trimRight s = s := by
  have hsuf : trimLeft s <:+ s := List.dropWhile_suffix _
  have hpre : trimRight (trimLeft s) <+: trimLeft s := trimRight_prefix _
  have hL : trimLeft s = s := by
    apply hsuf.eq_of_length
    have hl : (trimStr s).length = s.length := by rw [h]
    have h1 := hpre.length_le
    have h2 := hsuf.length_le
    unfold trimStr at hl
    omega
  refine ⟨hL, ?_⟩
  have h2 : trimStr s = trimRight s := by
    unfold trimStr
    rw [hL]
  rw [← h2]
  exact h


theorem trimLeft_cons_of_not_ws (a : Char) (s : Str) (h : isWs a = false) :
    trimLeft (a :: s) = a :: s := by
  unfold trimLeft
  rw [List.dropWhile_cons, if_neg (by simp [h])]


theorem trimStr_idem (s : Str) : trimStr (trimStr s) = trimStr s := by
  unfold trimStr
  have hL : trimLeft (trimRight (trimLeft s)) = trimRight (trimLeft s) := by
    cases hu : trimRight (trimLeft s) with
    | nil => rfl
    | cons c rest =>
      have hpre : trimRight (trimLeft s) <+: trimLeft s := trimRight_prefix _
      rw [hu] at hpre
      obtain ⟨t, ht⟩ := hpre
      have h3 : trimLeft s = c :: (rest ++ t) := by
        rw [← ht]
        rfl
      have hc : isWs c = false := dropWhile_head_not isWs s c (rest ++ t) h3
      exact trimLeft_cons_of_not_ws c rest hc
  rw [hL, trimRight_trimRight]


theorem trimLeft_append_ws (w c : Str) (hw : ∀ x ∈ w, isWs x = true) :
    trimLeft (w ++ c) = trimLeft c := by
  unfold trimLeft
  rw [List.dropWhile_append, List.dropWhile_eq_nil_iff.mpr hw]
  simp


theorem trimRight_append_ws (a w : Str) (hw : ∀ x ∈ w, isWs x = true) :
    trimRight (a ++ w) = trimRight a := by
  unfold trimRight
  rw [List.reverse_append, List.dropWhile_append,
    List.dropWhile_eq_nil_iff.mpr
      (by intro x hx; exact hw x (List.mem_reverse.mp hx))]
  simp


theorem trimRight_append_trimmed (a c : Str) (hc : trimRight c = c)
    (hne : c ≠ []) : trimRight (a ++ c) = a ++ c := by
  have hdw : c.reverse.dropWhile isWs = c.reverse := by
    have h := congrArg List.reverse hc
    rwa [trimRight, List.reverse_reverse] at h
  have hrev : c.reverse.isEmpty = false := by
    cases hcc : c.reverse with
    | nil => exact absurd (List.reverse_eq_nil_iff.mp hcc) hne
    | cons x xs => rfl
  unfold trimRight
  rw [List.reverse_append, List.dropWhile_append, hdw, hrev]
  simp only [Bool.false_eq_true, if_false]
  rw [← List.reverse_append, List.reverse_reverse]


theorem stripHeading_trimmed (hd raw : Str) :
    trimStr (stripHeading hd raw) = stripHeading hd raw := by
  simp only [stripHeading]
  by_cases h : startsWithL (headingPrefix hd) (trimStr raw) = true
  · rw [if_pos h]
    exact trimStr_idem _
  · rw [if_neg h]
    exact trimStr_idem _


theorem strip_format_eq (hd c : Str) (hhd : trimStr hd = hd)
    (hc : trimStr c = c) (hne : ¬ (hd = [] ∧ c = [])) :
    stripHeading hd (formatSection hd c) = c := by
  obtain ⟨hhl, hhr⟩ := trim_eq_self hd hhd
  obtain ⟨hcl, hcr⟩ := trim_eq_self c hc
  by_cases hc0 : c = []
  · subst hc0
    have hhd0 : hd ≠ [] := fun h0 => hne ⟨h0, rfl⟩
    have hpfx : trimRight (headingPrefix hd) = headingPrefix hd :=
      trimRight_append_trimmed ['#', '#', ' '] hd hhr hhd0
    have hFh : formatSection hd [] = '#' :: '#' :: ' ' ::
        (hd ++ ['\n', '\n', '\n', '\n']) := by
      simp [formatSection, headingPrefix]
    have h1 : formatSection hd [] =
        headingPrefix hd ++ ['\n', '\n', '\n', '\n'] := by
      simp [formatSection, headingPrefix]
    have htL : trimLeft (formatSection hd []) = formatSection hd [] := by
      rw [hFh]
      exact trimLeft_cons_of_not_ws '#' _ (by decide)
    have htR : trimRight (formatSection hd []) = headingPrefix hd := by
      rw [h1, trimRight_append_ws _ _ (by decide), hpfx]
    have ht : trimStr (formatSection hd []) = headingPrefix hd := by
      unfold trimStr
      rw [htL, htR]
    have hsw : startsWithL (headingPrefix hd) (headingPrefix hd) = true := by
      have h2 := startsWithL_append (headingPrefix hd) []
      rwa [List.append_nil] at h2
    simp only [stripHeading, ht]
    rw [if_pos hsw, List.drop_length]
    rfl
  · have hFh : formatSection hd c = '#' :: '#' :: ' ' ::
        (hd ++ ('\n' :: '\n' :: (c ++ ['\n', '\n']))) := by
      simp [formatSection, headingPrefix]
    have h1 : formatSection hd c =
        (headingPrefix hd ++ ('\n' :: '\n' :: c)) ++ ['\n', '\n'] := by
      simp [formatSection, headingPrefix]
    have h2 : headingPrefix hd ++ ('\n' :: '\n' :: c) =
        (headingPrefix hd ++ ['\n', '\n']) ++ c := by
      simp [List.append_assoc]
    have htL : trimLeft (formatSection hd c) = formatSection hd c := by
      rw [hFh]
      exact trimLeft_cons_of_not_ws '#' _ (by decide)
    have htR : trimRight (formatSection hd c) =
        headingPrefix hd ++ ('\n' :: '\n' :: c) := by
      rw [h1, trimRight_append_ws _ _ (by decide), h2,
        trimRight_append_trimmed _ c hcr hc0, ← h2]
    have ht : trimStr (formatSection hd c) =
        headingPrefix hd ++ ('\n' :: '\n' :: c) := by
      unfold trimStr
      rw [htL, htR]
    simp only [stripHeading, ht]
    rw [if_pos (startsWithL_append _ _), List.drop_left]
    have h3 : ('\n' :: '\n' :: c) = ['\n', '\n'] ++ c := rfl
    rw [h3]
    unfold trimStr
    rw [trimLeft_append_ws _ _ (by decide), hcl, hcr]


/-- C8 (amended): feeding a produced artifact's `fullMarkdownContent` back
through the heading-stripping logic with its own heading does not return
the body unchanged; it removes exactly the wrapper the formatter added,
returning the cleaned content that was wrapped — no further truncation of
the content — provided the heading is trimmed and the heading and the
cleaned content are not both empty. -/
theorem claimC8_strip_recovers_cleaned (hd raw : Str)
    (hhd : trimStr hd = hd)
    (hne : ¬ (hd = [] ∧ stripHeading hd raw = [])) :
    stripHeading hd (formatSection hd (stripHeading hd raw)) =
      stripHeading hd raw :=
  strip_format_eq hd (stripHeading hd raw) hhd
    (stripHeading_trimmed hd raw) hne


/-- Witness for C8 (amended): heading "A", raw content "hi". -/
theorem claimC8_strip_recovers_cleaned_witness :
    trimStr ['A'] = ['A'] ∧
    ¬ (['A'] = ([] : Str) ∧ stripHeading ['A'] ['h', 'i'] = []) ∧
    stripHeading ['A']
        (formatSection ['A'] (stripHeading ['A'] ['h', 'i'])) =
      stripHeading ['A'] ['h', 'i'] :=
  ⟨by decide, by decide,
   claimC8_strip_recovers_cleaned ['A'] ['h', 'i'] (by decide) (by decide)⟩


/-- Counterexample to C8 as stated: for the artifact the pipeline produces
for heading "A" and raw content "hi", applying the heading-stripping logic
to its `fullMarkdownContent` with its own heading does not return the body
unchanged. -/
theorem claimC8_strip_not_identity :
    (startFullGenerationProcess envC8 s0Init
        ['t'] ['a']).1.completedTutorialParts.map
        (fun p => stripHeading p.heading p.fullMarkdownContent) ≠
      (startFullGenerationProcess envC8 s0Init
          ['t'] ['a']).1.completedTutorialParts.map
        (fun p => p.fullMarkdownContent) := by
  decide


/-- C7 (amended): the primary scrape phase caps the structured results at 8
regardless of how many blocks the page parse returns, but the Serper
fallback phase has no local cap: it yields exactly one entry per organic
result the provider returns; the sources list of a successful response
mirrors the result list one-to-one. -/
theorem claimC7_result_cap (env : FetchEnv) :
    (∀ divs, env.scrape = .parsed divs → divs ≠ [] →
      gatherSearchResults env = .ok (scrapeResults env.unquote divs) ∧
      (scrapeResults env.unquote divs).length ≤ 8) ∧
    (∀ organic, env.scrape = .fetchError →
      env.serperKeyConfigured = true → env.serper = .parsed organic →
      gatherSearchResults env = .ok organic) ∧
    (∀ results summary, gatherSearchResults env = .ok results →
      results ≠ [] → env.summarize results = .ok summary →
      fetchFromInternet env =
        .ok ⟨trimStr summary,
          results.map (fun it => ⟨it.link, it.title⟩)⟩) := by
  refine ⟨?_, ?_, ?_⟩
  · intro divs hsc hdne
    have hie : divs.isEmpty = false := by
      cases divs
      · exact absurd rfl hdne
      · rfl
    unfold gatherSearchResults
    rw [hsc]
    simp only [hie, Bool.false_eq_true, if_false]
    refine ⟨trivial, ?_⟩
    calc ((divs.take 8).filterMap _).length
        ≤ (divs.take 8).length := List.length_filterMap_le _ _
      _ ≤ 8 := List.length_take_le _ _
  · intro organic hsc hconf hser
    unfold gatherSearchResults serperFallback
    rw [hsc, hconf, hser]
    rfl
  · intro results summary hres hrne hsum
    have hie : results.isEmpty = false := by
      cases results
      · exact absurd rfl hrne
      · rfl
    unfold fetchFromInternet
    rw [hres]
    simp only [hie, Bool.false_eq_true, if_false, hsum]


/-- Counterexample to C7 as stated: with nine organic provider results in
the fallback phase, the structured result list (and the returned sources
list) has nine entries, not at most 8. -/
theorem claimC7_fallback_uncapped :
    (fetchFromInternet envC7).map (fun r => r.sources.length) =
      Except.ok 9 ∧
    ¬ (9 ≤ 8) := by
  exact ⟨rfl, by decide⟩


/-- Witness for C7 (amended): the primary phase of `envC7prim` stays within
the cap, and the fallback phase of `envC7` returns exactly the provider's
organic list. -/
theorem claimC7_result_cap_witness :
    (gatherSearchResults envC7prim =
      .ok (scrapeResults envC7prim.unquote
        [⟨some ['t'], some ['l'], some ['s']⟩, ⟨none, none, none⟩]) ∧
    (scrapeResults envC7prim.unquote
        [⟨some ['t'], some ['l'], some ['s']⟩,
         ⟨none, none, none⟩]).length ≤ 8) ∧
    gatherSearchResults envC7 =
      .ok [serperItem 'a', serperItem 'b', serperItem 'c', serperItem 'd',
        serperItem 'e', serperItem 'f', serperItem 'g', serperItem 'h',
        serperItem 'i'] := by
  have h1 := (claimC7_result_cap envC7prim).1
    [⟨some ['t'], some ['l'], some ['s']⟩, ⟨none, none, none⟩] rfl
    (by intro h; exact List.noConfusion h)
  have h2 := (claimC7_result_cap envC7).2.1
    [serperItem 'a', serperItem 'b', serperItem 'c', serperItem 'd',
     serperItem 'e', serperItem 'f', serperItem 'g', serperItem 'h',
     serperItem 'i'] rfl rfl rfl
  exact ⟨h1, h2⟩


/-- C9 (amended): whenever the gathered `search_results` list is empty and
no hard error occurred — the primary parse produced only unusable blocks,
or the fallback returned zero organic results — the endpoint returns
successfully with the explicit empty result: summary text "No relevant
information could be found for this topic." and an empty sources list. -/
theorem claimC9_explicit_empty_result (env : FetchEnv)
    (h : gatherSearchResults env = .ok []) :
    fetchFromInternet env = .ok ⟨noInfoMsg, []⟩ := by
  unfold fetchFromInternet
  rw [h]
  rfl


/-- Witness for C9 (amended): `envC9` yields zero structured results
without error and the endpoint returns the explicit empty result. -/
theorem claimC9_explicit_empty_result_witness :
    gatherSearchResults envC9 = .ok [] ∧
    fetchFromInternet envC9 = .ok ⟨noInfoMsg, []⟩ :=
  ⟨rfl, claimC9_explicit_empty_result envC9 rfl⟩


/-- Counterexample to C9 as stated: the empty result's context string is
the code's "No relevant information could be found for this topic.", which
is not the string "no information found" the claim demands. -/
theorem claimC9_message_differs :
    (fetchFromInternet envC9).map (fun r => r.summaryText) =
      Except.ok noInfoMsg ∧
    noInfoMsg ≠ "no information found".toList := by
  exact ⟨rfl, by decide⟩


end Tutorials
